import Mathlib

/-!
# Cerumbra cryptographic core — formal model

A shallow embedding of the cryptographic session-establishment core of the
Cerumbra repository (ECDH on P-256, HKDF-SHA-256 key derivation, AES-256-GCM
authenticated encryption, attestation-quote assembly) together with models of
the two operational scripts (`example.py`, `verify.py`).

The demonstration scripts in the repository invoke the primitives of an
external cryptography library; the primitives themselves are therefore
modelled here from the specification (faithful, executable reimplementations
of P-256 arithmetic via Mathlib's Weierstrass curve theory, of SHA-256 / HMAC
/ HKDF, and of AES-256-GCM), while the control flow of the scripts is
translated directly from the source.
-/

set_option maxRecDepth 100000

/-! ## Modular exponentiation (kernel-computable), for primality certificates -/

/-- Fuel-indexed square-and-multiply modular exponentiation. -/
def powModF : ℕ → ℕ → ℕ → ℕ → ℕ
  | 0, _, _, n => 1 % n
  | fuel+1, a, e, n =>
    if e = 0 then 1 % n
    else powModF fuel (a * a % n) (e / 2) n * (if e % 2 = 1 then a % n else 1) % n

/-- Full modular power `powMod a e n = a ^ e % n`, computable by the kernel in `O(log e)` steps. -/
def powMod (a e n : ℕ) : ℕ := powModF e a e n

lemma powModF_lt (fuel a e n : ℕ) (hn : 0 < n) : powModF fuel a e n < n := by
  cases fuel with
  | zero => exact Nat.mod_lt _ hn
  | succ f =>
    rw [powModF]
    split
    · exact Nat.mod_lt _ hn
    · exact Nat.mod_lt _ hn

lemma powModF_cast (fuel : ℕ) : ∀ a e n : ℕ, e ≤ fuel →
    ((powModF fuel a e n : ℕ) : ZMod n) = (a : ZMod n) ^ e := by
  induction fuel with
  | zero =>
    intro a e n he
    interval_cases e
    simp [powModF]
  | succ f ih =>
    intro a e n he
    rw [powModF]
    by_cases he0 : e = 0
    · simp [he0]
    · rw [if_neg he0]
      push_cast [ZMod.natCast_mod]
      have hdiv : e / 2 ≤ f := by
        have h2 : e / 2 < e := Nat.div_lt_self (Nat.pos_of_ne_zero he0) one_lt_two
        omega
      have hrec := ih (a * a % n) (e / 2) n hdiv
      push_cast [ZMod.natCast_mod] at hrec
      rw [hrec]
      have hsplit : (a : ZMod n) ^ e = ((a : ZMod n) * a) ^ (e / 2) * a ^ (e % 2) := by
        rw [← sq, ← pow_mul, ← pow_add]
        rw [Nat.div_add_mod]
      rw [hsplit]
      rcases Nat.mod_two_eq_zero_or_one e with h2 | h2 <;> simp [h2]

lemma powMod_cast (a e n : ℕ) : ((powMod a e n : ℕ) : ZMod n) = (a : ZMod n) ^ e :=
  powModF_cast e a e n le_rfl

lemma powMod_lt (a e n : ℕ) (hn : 0 < n) : powMod a e n < n :=
  powModF_lt e a e n hn

/-- Every prime divisor of a product of prime powers is one of the listed bases. -/
lemma prime_mem_of_dvd_prodPow (es : List (ℕ × ℕ)) (hes : ∀ pe ∈ es, Nat.Prime pe.1)
    (q : ℕ) (hq : Nat.Prime q)
    (hdvd : q ∣ (es.map (fun pe => pe.1 ^ pe.2)).prod) : ∃ pe ∈ es, q = pe.1 := by
  induction es with
  | nil =>
    simp only [List.map_nil, List.prod_nil, Nat.dvd_one] at hdvd
    exact absurd hdvd hq.ne_one
  | cons pe rest ih =>
    simp only [List.map_cons, List.prod_cons] at hdvd
    rcases (Nat.Prime.dvd_mul hq).1 hdvd with h1 | h2
    · refine ⟨pe, List.mem_cons_self _ _, ?_⟩
      exact (Nat.prime_dvd_prime_iff_eq hq (hes pe (List.mem_cons_self _ _))).1
        (hq.dvd_of_dvd_pow h1)
    · obtain ⟨pe2, hmem, heq⟩ := ih (fun x hx => hes x (List.mem_cons_of_mem _ hx)) h2
      exact ⟨pe2, List.mem_cons_of_mem _ hmem, heq⟩

/-- Lucas primality certificate checker: `a` has order `p - 1` modulo `p`,
certified against an explicit prime factorisation of `p - 1`. -/
theorem lucasCert (p a : ℕ) (es : List (ℕ × ℕ)) (hp : 2 ≤ p)
    (hes : ∀ pe ∈ es, Nat.Prime pe.1)
    (hfac : p - 1 = (es.map (fun pe => pe.1 ^ pe.2)).prod)
    (ha : powMod a (p - 1) p = 1)
    (hne : ∀ pe ∈ es, powMod a ((p - 1) / pe.1) p ≠ 1) :
    Nat.Prime p := by
  have hp0 : 0 < p := by omega
  have hp1 : 1 < p := by omega
  apply lucas_primality p (a : ZMod p)
  · rw [← powMod_cast, ha, Nat.cast_one]
  · intro q hq hqdvd
    obtain ⟨pe, hmem, rfl⟩ :=
      prime_mem_of_dvd_prodPow es hes q hq (hfac ▸ hqdvd)
    intro hcontra
    apply hne pe hmem
    have hcast : ((powMod a ((p - 1) / pe.1) p : ℕ) : ZMod p) = ((1 : ℕ) : ZMod p) := by
      rw [powMod_cast, hcontra, Nat.cast_one]
    have hlt := powMod_lt a ((p - 1) / pe.1) p hp0
    have hv := congrArg ZMod.val hcast
    rwa [ZMod.val_cast_of_lt hlt, ZMod.val_cast_of_lt hp1] at hv

/-! ## Primality of the P-256 field characteristic (Pratt/Lucas certificate chain) -/

lemma prime_204061199 : Nat.Prime 204061199 := by
  apply lucasCert 204061199 11 [(2, 1), (11, 1), (23, 1), (107, 1), (3769, 1)] (by norm_num)
  · intro pe hpe
    fin_cases hpe <;> norm_num
  · decide
  · decide
  · intro pe hpe
    fin_cases hpe <;> decide

lemma prime_6700417 : Nat.Prime 6700417 := by
  apply lucasCert 6700417 5 [(2, 7), (3, 1), (17449, 1)] (by norm_num)
  · intro pe hpe
    fin_cases hpe <;> norm_num
  · decide
  · decide
  · intro pe hpe
    fin_cases hpe <;> decide

lemma prime_490463 : Nat.Prime 490463 := by
  apply lucasCert 490463 14 [(2, 1), (7, 1), (53, 1), (661, 1)] (by norm_num)
  · intro pe hpe
    fin_cases hpe <;> norm_num
  · decide
  · decide
  · intro pe hpe
    fin_cases hpe <;> decide

lemma prime_34282281433 : Nat.Prime 34282281433 := by
  apply lucasCert 34282281433 17 [(2, 3), (3, 1), (7, 1), (204061199, 1)] (by norm_num)
  · intro pe hpe
    fin_cases hpe <;> first
      | exact prime_204061199
      | norm_num
  · decide
  · decide
  · intro pe hpe
    fin_cases hpe <;> decide

lemma prime_66417393611 : Nat.Prime 66417393611 := by
  apply lucasCert 66417393611 6 [(2, 1), (5, 1), (53, 1), (173, 1), (197, 1), (3677, 1)]
    (by norm_num)
  · intro pe hpe
    fin_cases hpe <;> norm_num
  · decide
  · decide
  · intro pe hpe
    fin_cases hpe <;> decide

lemma prime_11290956913871 : Nat.Prime 11290956913871 := by
  apply lucasCert 11290956913871 13 [(2, 1), (5, 1), (17, 1), (66417393611, 1)] (by norm_num)
  · intro pe hpe
    fin_cases hpe <;> first
      | exact prime_66417393611
      | norm_num
  · decide
  · decide
  · intro pe hpe
    fin_cases hpe <;> decide

lemma prime_46076956964474543 : Nat.Prime 46076956964474543 := by
  apply lucasCert 46076956964474543 5 [(2, 1), (23, 1), (18169, 1), (78283, 1), (704251, 1)]
    (by norm_num)
  · intro pe hpe
    fin_cases hpe <;> norm_num
  · decide
  · decide
  · intro pe hpe
    fin_cases hpe <;> decide

lemma prime_q150 : Nat.Prime 774023187263532362759620327192479577272145303 := by
  apply lucasCert 774023187263532362759620327192479577272145303 3
    [(2, 1), (3, 2), (2411, 1), (34282281433, 1), (11290956913871, 1),
     (46076956964474543, 1)] (by norm_num)
  · intro pe hpe
    fin_cases hpe <;> first
      | exact prime_34282281433
      | exact prime_11290956913871
      | exact prime_46076956964474543
      | norm_num
  · decide
  · decide
  · intro pe hpe
    fin_cases hpe <;> decide

lemma prime_q160 : Nat.Prime 835945042244614951780389953367877943453916927241 := by
  apply lucasCert 835945042244614951780389953367877943453916927241 11
    [(2, 3), (3, 3), (5, 1), (774023187263532362759620327192479577272145303, 1)]
    (by norm_num)
  · intro pe hpe
    fin_cases hpe <;> first
      | exact prime_q150
      | norm_num
  · decide
  · decide
  · intro pe hpe
    fin_cases hpe <;> decide

/-- The P-256 field characteristic `2^256 - 2^224 + 2^192 + 2^96 - 1`. -/
def p256 : ℕ := 115792089210356248762697446949407573530086143415290314195533631308867097853951

lemma p256_eq : p256 = 2 ^ 256 - 2 ^ 224 + 2 ^ 192 + 2 ^ 96 - 1 := by decide

lemma p256_prime : Nat.Prime p256 := by
  apply lucasCert p256 6
    [(2, 1), (3, 1), (5, 2), (17, 1), (257, 1), (641, 1), (1531, 1), (65537, 1),
     (490463, 1), (6700417, 1), (835945042244614951780389953367877943453916927241, 1)]
    (by norm_num [p256])
  · intro pe hpe
    fin_cases hpe <;> first
      | exact prime_q160
      | exact prime_490463
      | exact prime_6700417
      | norm_num
  · decide
  · decide
  · intro pe hpe
    fin_cases hpe <;> decide

instance fact_p256_prime : Fact (Nat.Prime p256) := ⟨p256_prime⟩

/-! ## Error taxonomy (spec §7)

Modelled from the spec: the error taxonomy of the cryptographic core
(`RandomSourceUnavailable`, `InvalidPeerPublicKey`, `DerivationLengthInvalid`,
`AuthenticationFailed`, `ChannelClosed`); the typed errors live in the external
cryptography library, not under `src/`. -/

inductive CryptoError where
  | RandomSourceUnavailable
  | InvalidPeerPublicKey
  | DerivationLengthInvalid
  | AuthenticationFailed
  | ChannelClosed
  deriving DecidableEq, Repr

/-! ## The P-256 curve and ECDH key agreement

Modelled from the spec: the `KeyPairProvider` / `KeyAgreement` components
(spec §4.1–§4.2) run ECDH on curve P-256; the curve arithmetic lives in the
external cryptography library, not under `src/`.  The curve is embedded with
its real parameters via Mathlib's Weierstrass curve theory. -/

/-- The P-256 coefficient `b`. -/
def b256 : ℕ := 41058363725152142129326129780047268409114441015993725554835256314039467401291

/-- Curve P-256 (secp256r1): `y² = x³ - 3x + b` over `GF(p256)`. -/
def P256 : WeierstrassCurve.Affine (ZMod p256) :=
  { a₁ := 0, a₂ := 0, a₃ := 0, a₄ := -3, a₆ := (b256 : ZMod p256) }

lemma P256_Δ_ne_zero : P256.Δ ≠ 0 := by decide

/-- x-coordinate of the standard P-256 base point. -/
def gx : ℕ := 48439561293906451759052585252797914202762949526041747995844080717082404635286

/-- y-coordinate of the standard P-256 base point. -/
def gy : ℕ := 36134250956749795798585127919587881956611106672985015071877198253568414405109

/-- Membership in curve P-256, as checked on a raw affine coordinate pair. -/
def onCurve (x y : ZMod p256) : Prop := y ^ 2 = x ^ 3 - 3 * x + (b256 : ZMod p256)

instance (x y : ZMod p256) : Decidable (onCurve x y) :=
  inferInstanceAs (Decidable (_ = _))

lemma onCurve_iff (x y : ZMod p256) : onCurve x y ↔ P256.Equation x y := by
  rw [WeierstrassCurve.Affine.equation_iff]
  simp only [P256]
  unfold onCurve
  constructor <;> intro h <;> linear_combination h

lemma nonsingular_of_onCurve {x y : ZMod p256} (h : onCurve x y) : P256.Nonsingular x y :=
  P256.nonsingular_of_Δ_ne_zero ((onCurve_iff x y).1 h) P256_Δ_ne_zero

lemma g_onCurve : onCurve (gx : ZMod p256) (gy : ZMod p256) := by decide

/-- The P-256 base point as a nonsingular curve point. -/
def Gpt : P256.Point :=
  WeierstrassCurve.Affine.Point.some (nonsingular_of_onCurve g_onCurve)

/-- Honest key generation (spec §4.1): the public key of private scalar `d`
is `d • G` on P-256. -/
noncomputable def pubOf (d : ℕ) : P256.Point := d • Gpt

/-- The raw shared secret of an ECDH exchange is the x-coordinate of the
computed point; the point at infinity yields no shared secret. -/
def sharedX : P256.Point → Option (ZMod p256)
  | WeierstrassCurve.Affine.Point.zero => none
  | @WeierstrassCurve.Affine.Point.some _ _ _ x _ _ => some x

/-- Big-endian byte serialisation of a natural number into `len` bytes. -/
def natToBytesBE : ℕ → ℕ → List ℕ
  | 0, _ => []
  | len+1, n => natToBytesBE len (n / 256) ++ [n % 256]

lemma natToBytesBE_length (len n : ℕ) : (natToBytesBE len n).length = len := by
  induction len generalizing n with
  | zero => rfl
  | succ k ih => simp [natToBytesBE, ih]

/-- ECDH key agreement against an already-validated curve point (spec §4.2):
`agree(d, P) = x(d • P)` serialised as 32 bytes. -/
noncomputable def agree (d : ℕ) (P : P256.Point) : Option (List ℕ) :=
  (sharedX (d • P)).map fun x => natToBytesBE 32 x.val

/-- ECDH key agreement on a raw peer coordinate pair, with peer-key
validation (spec §4.2): a pair that is not on curve P-256 is rejected with
`InvalidPeerPublicKey` before any secret is computed. -/
noncomputable def agreeChecked (d : ℕ) (x y : ZMod p256) :
    Except CryptoError (Option (List ℕ)) :=
  if h : onCurve x y then
    Except.ok (agree d (WeierstrassCurve.Affine.Point.some (nonsingular_of_onCurve h)))
  else
    Except.error CryptoError.InvalidPeerPublicKey

/-! ## SHA-256, HMAC and HKDF (the `KeyDeriver` of spec §4.3)

Modelled from the spec: `derive(secret, info, length)` runs HKDF over
HMAC-SHA-256 with no salt and the fixed protocol info string; the hash
implementation lives in the external cryptography library, not under `src/`.
Below is a byte-level implementation of FIPS 180-4 SHA-256, RFC 2104 HMAC and
RFC 5869 HKDF. -/

/-- Truncated 32-bit addition. -/
def add32 (a b : ℕ) : ℕ := (a + b) % 2 ^ 32

/-- Right rotation of a 32-bit word. -/
def rotr32 (r w : ℕ) : ℕ := ((w >>> r) ||| (w <<< (32 - r))) % 2 ^ 32

/-- Byte-wise XOR of two equal-length byte strings. -/
def zipXor (a b : List ℕ) : List ℕ := List.zipWith (fun x y => x ^^^ y) a b

lemma zipXor_length (a b : List ℕ) : (zipXor a b).length = min a.length b.length :=
  List.length_zipWith _ a b

lemma zipXor_zipXor_cancel : ∀ (m ks : List ℕ), m.length ≤ ks.length →
    zipXor (zipXor m ks) ks = m := by
  intro m
  induction m with
  | nil => intro ks _; rfl
  | cons a m ih =>
    intro ks hlen
    cases ks with
    | nil => simp at hlen
    | cons k ks =>
      simp only [zipXor, List.zipWith_cons_cons]
      rw [Nat.xor_assoc, Nat.xor_self, Nat.xor_zero]
      have := ih ks (by simpa using hlen)
      simp only [zipXor] at this
      rw [this]

/-- The SHA-256 round constants. -/
def shaK : List ℕ := [1116352408, 1899447441, 3049323471, 3921009573, 961987163, 1508970993, 2453635748, 2870763221, 3624381080, 310598401, 607225278, 1426881987, 1925078388, 2162078206, 2614888103, 3248222580, 3835390401, 4022224774, 264347078, 604807628, 770255983, 1249150122, 1555081692, 1996064986, 2554220882, 2821834349, 2952996808, 3210313671, 3336571891, 3584528711, 113926993, 338241895, 666307205, 773529912, 1294757372, 1396182291, 1695183700, 1986661051, 2177026350, 2456956037, 2730485921, 2820302411, 3259730800, 3345764771, 3516065817, 3600352804, 4094571909, 275423344, 430227734, 506948616, 659060556, 883997877, 958139571, 1322822218, 1537002063, 1747873779, 1955562222, 2024104815, 2227730452, 2361852424, 2428436474, 2756734187, 3204031479, 3329325298]

/-- The SHA-256 compression state: eight 32-bit working words. -/
structure ShaState where
  a : ℕ
  b : ℕ
  c : ℕ
  d : ℕ
  e : ℕ
  f : ℕ
  g : ℕ
  h : ℕ

/-- The SHA-256 initial hash value. -/
def shaInit : ShaState :=
  ⟨1779033703, 3144134277, 1013904242, 2773480762, 1359893119, 2600822924, 528734635, 1541459225⟩

/-- Group a byte string into big-endian 32-bit words (4 bytes per word). -/
def bytesToWords32 : List ℕ → List ℕ
  | b0 :: b1 :: b2 :: b3 :: rest =>
      ((((b0 % 256) * 256 + b1 % 256) * 256 + b2 % 256) * 256 + b3 % 256) :: bytesToWords32 rest
  | _ => []

/-- The sigma-0 message-schedule function. -/
def ssig0 (w : ℕ) : ℕ := rotr32 7 w ^^^ rotr32 18 w ^^^ (w >>> 3)

/-- The sigma-1 message-schedule function. -/
def ssig1 (w : ℕ) : ℕ := rotr32 17 w ^^^ rotr32 19 w ^^^ (w >>> 10)

/-- The big-sigma-0 compression function. -/
def bsig0 (w : ℕ) : ℕ := rotr32 2 w ^^^ rotr32 13 w ^^^ rotr32 22 w

/-- The big-sigma-1 compression function. -/
def bsig1 (w : ℕ) : ℕ := rotr32 6 w ^^^ rotr32 11 w ^^^ rotr32 25 w

/-- Extend a 16-word message block to the full 64-word schedule,
appending `k` further words. -/
def extendW (ws : List ℕ) : ℕ → List ℕ
  | 0 => ws
  | k+1 => extendW (ws ++ [add32 (add32 (ssig1 (ws.getD (ws.length - 2) 0)) (ws.getD (ws.length - 7) 0)) (add32 (ssig0 (ws.getD (ws.length - 15) 0)) (ws.getD (ws.length - 16) 0))]) k

/-- One SHA-256 compression round. -/
def shaRound (st : ShaState) (kw : ℕ × ℕ) : ShaState :=
  let t1 := add32 (add32 (add32 st.h (bsig1 st.e)) (add32 ((st.e &&& st.f) ^^^ ((2 ^ 32 - 1 - st.e) &&& st.g)) kw.1)) kw.2
  let t2 := add32 (bsig0 st.a) (((st.a &&& st.b) ^^^ (st.a &&& st.c)) ^^^ (st.b &&& st.c))
  ⟨add32 t1 t2, st.a, st.b, st.c, add32 st.d t1, st.e, st.f, st.g⟩

/-- Process one 64-byte block. -/
def shaBlock (st : ShaState) (block : List ℕ) : ShaState :=
  let w := extendW (bytesToWords32 block) 48
  let e := (shaK.zip w).foldl shaRound st
  ⟨add32 st.a e.a, add32 st.b e.b, add32 st.c e.c, add32 st.d e.d,
   add32 st.e e.e, add32 st.f e.f, add32 st.g e.g, add32 st.h e.h⟩

/-- FIPS 180-4 padding: `0x80`, zeros, then the 64-bit bit length. -/
def shaPad (msg : List ℕ) : List ℕ :=
  msg ++ [128] ++ List.replicate ((64 - (msg.length + 9) % 64) % 64) 0
      ++ natToBytesBE 8 (8 * msg.length)

/-- Split a byte string into 64-byte blocks. -/
def toBlocks64 (l : List ℕ) : List (List ℕ) :=
  if l = [] then [] else l.take 64 :: toBlocks64 (l.drop 64)
termination_by l.length
decreasing_by
  rename_i hne
  have hp : 0 < l.length := List.length_pos.2 hne
  simp only [List.length_drop]
  omega

/-- SHA-256 of a byte string. -/
def sha256 (msg : List ℕ) : List ℕ :=
  let fin := (toBlocks64 (shaPad msg)).foldl shaBlock shaInit
  natToBytesBE 4 fin.a ++ natToBytesBE 4 fin.b ++ natToBytesBE 4 fin.c ++ natToBytesBE 4 fin.d
    ++ natToBytesBE 4 fin.e ++ natToBytesBE 4 fin.f ++ natToBytesBE 4 fin.g ++ natToBytesBE 4 fin.h

lemma sha256_length (msg : List ℕ) : (sha256 msg).length = 32 := by
  simp [sha256, natToBytesBE_length]

/-- RFC 2104 HMAC-SHA-256. -/
def hmacSha256 (key msg : List ℕ) : List ℕ :=
  let k0 := if 64 < key.length then sha256 key else key
  let k0p := k0 ++ List.replicate (64 - k0.length) 0
  sha256 ((k0p.map (fun b => b ^^^ 92)) ++ sha256 ((k0p.map (fun b => b ^^^ 54)) ++ msg))

lemma hmacSha256_length (key msg : List ℕ) : (hmacSha256 key msg).length = 32 :=
  sha256_length _

/-- RFC 5869 HKDF-Expand block chain: `T(i+1) = HMAC(prk, T(i) ‖ info ‖ i+1)`. -/
def hkdfBlocks (prk info prev : List ℕ) (i : ℕ) : ℕ → List ℕ
  | 0 => []
  | fuel+1 =>
    let t := hmacSha256 prk (prev ++ info ++ [i])
    t ++ hkdfBlocks prk info t (i + 1) fuel

lemma hkdfBlocks_length (prk info : List ℕ) :
    ∀ (fuel : ℕ) (prev : List ℕ) (i : ℕ),
      (hkdfBlocks prk info prev i fuel).length = 32 * fuel := by
  intro fuel
  induction fuel with
  | zero => intro prev i; rfl
  | succ f ih =>
    intro prev i
    simp only [hkdfBlocks, List.length_append, hmacSha256_length, ih]
    ring

/-- RFC 5869 HKDF over SHA-256: extract with the given salt, then expand
`info` to `len` output bytes. -/
def hkdfSha256 (salt ikm info : List ℕ) (len : ℕ) : List ℕ :=
  let prk := hmacSha256 salt ikm
  (hkdfBlocks prk info [] 1 ((len + 31) / 32)).take len

/-- The `KeyDeriver` operation of spec §4.3: HKDF-SHA-256 with no salt
(an all-zero hash-length salt per RFC 5869) over the raw shared secret. -/
def derive (secret info : List ℕ) (len : ℕ) : List ℕ :=
  hkdfSha256 (List.replicate 32 0) secret info len

lemma hkdfSha256_length (salt ikm info : List ℕ) (len : ℕ) :
    (hkdfSha256 salt ikm info len).length = len := by
  simp only [hkdfSha256, List.length_take, hkdfBlocks_length]
  have h1 : len % 32 < 32 := Nat.mod_lt _ (by norm_num)
  have h2 := Nat.div_add_mod (len + 31) 32
  omega

lemma derive_length (secret info : List ℕ) (len : ℕ) :
    (derive secret info len).length = len :=
  hkdfSha256_length _ _ _ _

/-- Bytes of an ASCII string (all protocol strings in scope are ASCII,
where UTF-8 coincides with the code points). -/
def strBytes (s : String) : List ℕ := s.data.map Char.toNat

/-- The fixed protocol info string `"cerumbra-v1-encryption"`. -/
def cerumbraInfo : List ℕ := strBytes "cerumbra-v1-encryption"

/-! ## AES-256-GCM (the `AeadCodec` of spec §4.4)

Modelled from the spec: `encrypt` / `decrypt` run AES-256-GCM; the cipher
lives in the external cryptography library, not under `src/`.  Below is a
byte-level implementation of FIPS 197 AES-256 and NIST SP 800-38D GCM
(96-bit nonce path, as used by the scripts). -/

/-- The AES S-box. -/
def sbox : List ℕ := [99, 124, 119, 123, 242, 107, 111, 197, 48, 1, 103, 43, 254, 215, 171, 118, 202, 130, 201, 125, 250, 89, 71, 240, 173, 212, 162, 175, 156, 164, 114, 192, 183, 253, 147, 38, 54, 63, 247, 204, 52, 165, 229, 241, 113, 216, 49, 21, 4, 199, 35, 195, 24, 150, 5, 154, 7, 18, 128, 226, 235, 39, 178, 117, 9, 131, 44, 26, 27, 110, 90, 160, 82, 59, 214, 179, 41, 227, 47, 132, 83, 209, 0, 237, 32, 252, 177, 91, 106, 203, 190, 57, 74, 76, 88, 207, 208, 239, 170, 251, 67, 77, 51, 133, 69, 249, 2, 127, 80, 60, 159, 168, 81, 163, 64, 143, 146, 157, 56, 245, 188, 182, 218, 33, 16, 255, 243, 210, 205, 12, 19, 236, 95, 151, 68, 23, 196, 167, 126, 61, 100, 93, 25, 115, 96, 129, 79, 220, 34, 42, 144, 136, 70, 238, 184, 20, 222, 94, 11, 219, 224, 50, 58, 10, 73, 6, 36, 92, 194, 211, 172, 98, 145, 149, 228, 121, 231, 200, 55, 109, 141, 213, 78, 169, 108, 86, 244, 234, 101, 122, 174, 8, 186, 120, 37, 46, 28, 166, 180, 198, 232, 221, 116, 31, 75, 189, 139, 138, 112, 62, 181, 102, 72, 3, 246, 14, 97, 53, 87, 185, 134, 193, 29, 158, 225, 248, 152, 17, 105, 217, 142, 148, 155, 30, 135, 233, 206, 85, 40, 223, 140, 161, 137, 13, 191, 230, 66, 104, 65, 153, 45, 15, 176, 84, 187, 22]

/-- S-box substitution of one byte. -/
def sb (b : ℕ) : ℕ := sbox.getD (b % 256) 0

/-- AES-256 round constants for the key schedule. -/
def rcon : List ℕ := [1, 2, 4, 8, 16, 32, 64]

/-- Group a byte string into 4-byte words. -/
def bytesToWords4 : List ℕ → List (List ℕ)
  | b0 :: b1 :: b2 :: b3 :: rest => [b0, b1, b2, b3] :: bytesToWords4 rest
  | _ => []

/-- Rotate a 4-byte word left by one byte. -/
def rotWord (w : List ℕ) : List ℕ := [w.getD 1 0, w.getD 2 0, w.getD 3 0, w.getD 0 0]

/-- Apply the S-box to each byte of a word. -/
def subWord (w : List ℕ) : List ℕ := w.map sb

/-- AES-256 key schedule: extend the 8 initial words by `k` further words. -/
def expandKeyAux (ws : List (List ℕ)) : ℕ → List (List ℕ)
  | 0 => ws
  | k+1 =>
    let i := ws.length
    let prev := ws.getD (i - 1) []
    let temp :=
      if i % 8 = 0 then zipXor (subWord (rotWord prev)) [rcon.getD (i / 8 - 1) 0, 0, 0, 0]
      else if i % 8 = 4 then subWord prev
      else prev
    expandKeyAux (ws ++ [zipXor (ws.getD (i - 8) []) temp]) k

/-- The 60-word AES-256 key schedule. -/
def keySchedule (key : List ℕ) : List (List ℕ) := expandKeyAux (bytesToWords4 key) 52

/-- Round key `r` (16 bytes) of the AES-256 key schedule. -/
def rk (key : List ℕ) (r : ℕ) : List ℕ := (((keySchedule key).drop (4 * r)).take 4).flatten

/-- The AES `ShiftRows` permutation on a column-major 16-byte state. -/
def shiftRows (st : List ℕ) : List ℕ :=
  [st.getD 0 0, st.getD 5 0, st.getD 10 0, st.getD 15 0,
   st.getD 4 0, st.getD 9 0, st.getD 14 0, st.getD 3 0,
   st.getD 8 0, st.getD 13 0, st.getD 2 0, st.getD 7 0,
   st.getD 12 0, st.getD 1 0, st.getD 6 0, st.getD 11 0]

/-- Multiplication by `x` in `GF(2⁸)` modulo `x⁸ + x⁴ + x³ + x + 1`. -/
def xtime (b : ℕ) : ℕ := if b < 128 then 2 * b else (2 * b) ^^^ 283

/-- The AES `MixColumns` transformation of a single 4-byte column. -/
def mixCol (c : List ℕ) : List ℕ :=
  let a0 := c.getD 0 0
  let a1 := c.getD 1 0
  let a2 := c.getD 2 0
  let a3 := c.getD 3 0
  [xtime a0 ^^^ (xtime a1 ^^^ a1) ^^^ a2 ^^^ a3,
   a0 ^^^ xtime a1 ^^^ (xtime a2 ^^^ a2) ^^^ a3,
   a0 ^^^ a1 ^^^ xtime a2 ^^^ (xtime a3 ^^^ a3),
   (xtime a0 ^^^ a0) ^^^ a1 ^^^ a2 ^^^ xtime a3]

/-- The `MixColumns` step on the full 16-byte state. -/
def mixColumns (st : List ℕ) : List ℕ :=
  mixCol (st.take 4) ++ mixCol ((st.drop 4).take 4)
    ++ mixCol ((st.drop 8).take 4) ++ mixCol ((st.drop 12).take 4)

/-- One full AES round (SubBytes, ShiftRows, MixColumns, AddRoundKey). -/
def aesRound (rkey st : List ℕ) : List ℕ := zipXor (mixColumns (shiftRows (st.map sb))) rkey

/-- AES-256 block encryption (14 rounds): initial `AddRoundKey`, thirteen
full rounds, and a final round without `MixColumns`. -/
def aesEncBlock (key block : List ℕ) : List ℕ :=
  zipXor
    (shiftRows
      (((List.range 13).foldl (fun st i => aesRound (rk key (i + 1)) st)
        (zipXor block (rk key 0))).map sb))
    (rk key 14)

/-- Big-endian interpretation of a byte string as a natural number. -/
def beBytesToNat (l : List ℕ) : ℕ := l.foldl (fun acc b => acc * 256 + b % 256) 0

/-- The GCM reduction constant `R = 0xe1 · 2¹²⁰`. -/
def gfR : ℕ := 225 <<< 120

/-- One hundred twenty eight steps of carry-less multiplication in
`GF(2¹²⁸)` with the GCM bit ordering (bit `i` of the first operand is
processed most-significant first). -/
def gmulAux : ℕ → ℕ → ℕ → ℕ → ℕ
  | 0, _, z, _ => z
  | i+1, x, z, v =>
    gmulAux i x (if x.testBit i then z ^^^ v else z)
      (if v.testBit 0 then (v >>> 1) ^^^ gfR else v >>> 1)

/-- Multiplication in GCM's `GF(2¹²⁸)`. -/
def gmul (x y : ℕ) : ℕ := gmulAux 128 x 0 y

/-- Zero padding of a byte string up to a 16-byte boundary. -/
def pad16 (l : List ℕ) : List ℕ := List.replicate ((16 - l.length % 16) % 16) 0

/-- The byte string authenticated by `GHASH`:
`ad ‖ pad(ad) ‖ ct ‖ pad(ct) ‖ len64(ad) ‖ len64(ct)` (bit lengths). -/
def ghashData (ad ct : List ℕ) : List ℕ :=
  ad ++ pad16 ad ++ ct ++ pad16 ct ++ natToBytesBE 8 (8 * ad.length) ++ natToBytesBE 8 (8 * ct.length)

/-- Split a byte string into 16-byte blocks. -/
def chunks16 (l : List ℕ) : List (List ℕ) :=
  if l = [] then [] else l.take 16 :: chunks16 (l.drop 16)
termination_by l.length
decreasing_by
  rename_i hne
  have hp : 0 < l.length := List.length_pos.2 hne
  simp only [List.length_drop]
  omega

/-- The `GHASH` function under hash subkey `h`. -/
def ghash (h : ℕ) (data : List ℕ) : ℕ :=
  (chunks16 data).foldl (fun acc blk => gmul (acc ^^^ beBytesToNat blk) h) 0

/-- Increment the last 32 bits of a counter block. -/
def inc32 (cb : List ℕ) : List ℕ :=
  cb.take 12 ++ natToBytesBE 4 ((beBytesToNat (cb.drop 12) + 1) % 2 ^ 32)

/-- The blocks of the CTR keystream, starting from counter block `cb`. -/
def ctrBlocks (key : List ℕ) : List ℕ → ℕ → List (List ℕ)
  | _, 0 => []
  | cb, n+1 => aesEncBlock key cb :: ctrBlocks key (inc32 cb) n

/-- The first `len` bytes of CTR keystream starting from counter block `cb`. -/
def keystream (key cb : List ℕ) (len : ℕ) : List ℕ :=
  ((ctrBlocks key cb ((len + 15) / 16)).flatten).take len

/-- The pre-counter block `J₀` for a 96-bit nonce: `nonce ‖ 0³¹ ‖ 1`. -/
def j0 (nonce : List ℕ) : List ℕ := nonce ++ [0, 0, 0, 1]

/-- The 16-byte GCM authentication tag over ciphertext body `body` and
associated data `ad`: `GHASH_H(ad, body) ⊕ E_K(J₀)`. -/
def gcmTag (key nonce body ad : List ℕ) : List ℕ :=
  zipXor
    (natToBytesBE 16
      (ghash (beBytesToNat (aesEncBlock key (List.replicate 16 0))) (ghashData ad body)))
    (aesEncBlock key (j0 nonce))

/-- AES-256-GCM encryption: returns `ciphertext-body ‖ tag`, the wire format
produced by the library's `AESGCM.encrypt`. -/
def gcmEncrypt (key nonce m ad : List ℕ) : List ℕ :=
  zipXor m (keystream key (inc32 (j0 nonce)) m.length)
    ++ gcmTag key nonce (zipXor m (keystream key (inc32 (j0 nonce)) m.length)) ad

/-- AES-256-GCM decryption: verifies the authentication tag over the entire
ciphertext and associated data and only then releases the plaintext; on any
tag mismatch it fails with `AuthenticationFailed` and releases nothing. -/
def gcmDecrypt (key nonce ct ad : List ℕ) : Except CryptoError (List ℕ) :=
  if ct.length < 16 then Except.error CryptoError.AuthenticationFailed
  else if gcmTag key nonce (ct.take (ct.length - 16)) ad = ct.drop (ct.length - 16) then
    Except.ok
      (zipXor (ct.take (ct.length - 16))
        (keystream key (inc32 (j0 nonce)) (ct.take (ct.length - 16)).length))
  else Except.error CryptoError.AuthenticationFailed

/-- An `Envelope` (spec §3): the nonce plus `ciphertext ‖ tag`. -/
structure Envelope where
  nonce : List ℕ
  ciphertext : List ℕ
  deriving DecidableEq, Repr

/-- Draw a fresh 12-byte nonce from the entropy source `rng`
(`secrets.token_bytes(12)` in the scripts). -/
def genNonce (rng : ℕ → ℕ) : List ℕ := (List.range 12).map fun i => rng i % 256

/-- The `AeadCodec.encrypt` operation of spec §4.4: draw a fresh random
12-byte nonce from the entropy source, run AES-256-GCM, return the envelope. -/
def encryptEnv (rng : ℕ → ℕ) (key m ad : List ℕ) : Envelope :=
  ⟨genNonce rng, gcmEncrypt key (genNonce rng) m ad⟩

/-- The `AeadCodec.decrypt` operation of spec §4.4. -/
def decryptEnv (key : List ℕ) (env : Envelope) (ad : List ℕ) : Except CryptoError (List ℕ) :=
  gcmDecrypt key env.nonce env.ciphertext ad

/-! ### Shape lemmas for AES-256-GCM -/

lemma getD_mem {α : Type} (l : List α) (n : ℕ) (d : α) (h : n < l.length) : l.getD n d ∈ l := by
  rw [List.getD_eq_getElem l d h]
  exact List.getElem_mem h

lemma bytesToWords4_word_length :
    ∀ (n : ℕ) (l : List ℕ), l.length ≤ n → ∀ w ∈ bytesToWords4 l, w.length = 4 := by
  intro n
  induction n with
  | zero =>
    intro l hl w hw
    rcases List.length_eq_zero.1 (Nat.le_zero.1 hl) with rfl
    simp [bytesToWords4] at hw
  | succ n ih =>
    intro l hl w hw
    rcases l with _ | ⟨a, _ | ⟨b, _ | ⟨c, _ | ⟨d, rest⟩⟩⟩⟩
    · simp [bytesToWords4] at hw
    · simp [bytesToWords4] at hw
    · simp [bytesToWords4] at hw
    · simp [bytesToWords4] at hw
    · rw [bytesToWords4] at hw
      rcases List.mem_cons.1 hw with rfl | hmem
      · rfl
      · exact ih rest (by simp at hl; omega) w hmem

lemma bytesToWords4_count :
    ∀ (n : ℕ) (l : List ℕ), l.length ≤ n → (bytesToWords4 l).length = l.length / 4 := by
  intro n
  induction n with
  | zero =>
    intro l hl
    rcases List.length_eq_zero.1 (Nat.le_zero.1 hl) with rfl
    rfl
  | succ n ih =>
    intro l hl
    rcases l with _ | ⟨a, _ | ⟨b, _ | ⟨c, _ | ⟨d, rest⟩⟩⟩⟩
    · rfl
    · simp [bytesToWords4]
    · simp [bytesToWords4]
    · simp [bytesToWords4]
    · rw [bytesToWords4]
      simp only [List.length_cons]
      rw [ih rest (by simp at hl; omega)]
      omega

lemma expandKeyAux_count : ∀ (k : ℕ) (ws : List (List ℕ)),
    (expandKeyAux ws k).length = ws.length + k := by
  intro k
  induction k with
  | zero => intro ws; rfl
  | succ k ih =>
    intro ws
    rw [expandKeyAux]
    rw [ih]
    simp
    omega

lemma rotWord_length (w : List ℕ) : (rotWord w).length = 4 := rfl

lemma expandKeyAux_word_length : ∀ (k : ℕ) (ws : List (List ℕ)), ws ≠ [] →
    (∀ w ∈ ws, w.length = 4) → ∀ w ∈ expandKeyAux ws k, w.length = 4 := by
  intro k
  induction k with
  | zero => intro ws _ h w hw; exact h w hw
  | succ k ih =>
    intro ws hne h
    rw [expandKeyAux]
    have hpos : 0 < ws.length := List.length_pos.2 hne
    apply ih
    · simp
    · intro w hw
      rcases List.mem_append.1 hw with h1 | h2
      · exact h w h1
      · rw [List.mem_singleton] at h2
        subst h2
        have hprev : (ws.getD (ws.length - 1) []).length = 4 :=
          h _ (getD_mem _ _ _ (by omega))
        have htemp : (if ws.length % 8 = 0 then
              zipXor (subWord (rotWord (ws.getD (ws.length - 1) [])))
                [rcon.getD (ws.length / 8 - 1) 0, 0, 0, 0]
            else if ws.length % 8 = 4 then subWord (ws.getD (ws.length - 1) [])
            else ws.getD (ws.length - 1) []).length = 4 := by
          split
          · rw [zipXor_length, subWord, List.length_map, rotWord_length]
            rfl
          · split
            · rw [subWord, List.length_map, hprev]
            · exact hprev
        rw [zipXor_length, h _ (getD_mem _ _ _ (by omega)), htemp]
        exact Nat.min_self 4

lemma keySchedule_count (key : List ℕ) (hk : key.length = 32) :
    (keySchedule key).length = 60 := by
  rw [keySchedule, expandKeyAux_count, bytesToWords4_count key.length key le_rfl, hk]

lemma keySchedule_word_length (key : List ℕ) (hk : key.length = 32) :
    ∀ w ∈ keySchedule key, w.length = 4 := by
  apply expandKeyAux_word_length
  · intro hcon
    have := congrArg List.length hcon
    rw [bytesToWords4_count key.length key le_rfl, hk] at this
    simp at this
  · exact bytesToWords4_word_length key.length key le_rfl

lemma flatten_const_length (c : ℕ) : ∀ (l : List (List ℕ)),
    (∀ w ∈ l, w.length = c) → l.flatten.length = c * l.length := by
  intro l
  induction l with
  | nil => intro _; rfl
  | cons w rest ih =>
    intro h
    simp only [List.flatten_cons, List.length_append, List.length_cons]
    rw [h w (List.mem_cons_self _ _), ih (fun x hx => h x (List.mem_cons_of_mem _ hx))]
    ring

lemma rk_length (key : List ℕ) (r : ℕ) (hk : key.length = 32) (hr : r ≤ 14) :
    (rk key r).length = 16 := by
  rw [rk, flatten_const_length 4]
  · rw [List.length_take, List.length_drop, keySchedule_count key hk]
    omega
  · intro w hw
    exact keySchedule_word_length key hk w (List.mem_of_mem_drop (List.mem_of_mem_take hw))

lemma shiftRows_length (st : List ℕ) : (shiftRows st).length = 16 := rfl

lemma aesEncBlock_length (key block : List ℕ) (hk : key.length = 32) :
    (aesEncBlock key block).length = 16 := by
  rw [aesEncBlock, zipXor_length, shiftRows_length, rk_length key 14 hk (by norm_num)]
  exact Nat.min_self 16

lemma ctrBlocks_count (key : List ℕ) : ∀ (n : ℕ) (cb : List ℕ),
    (ctrBlocks key cb n).length = n := by
  intro n
  induction n with
  | zero => intro cb; rfl
  | succ n ih => intro cb; simp [ctrBlocks, ih]

lemma ctrBlocks_block_length (key : List ℕ) (hk : key.length = 32) :
    ∀ (n : ℕ) (cb : List ℕ), ∀ w ∈ ctrBlocks key cb n, w.length = 16 := by
  intro n
  induction n with
  | zero => intro cb w hw; simp [ctrBlocks] at hw
  | succ n ih =>
    intro cb w hw
    rw [ctrBlocks] at hw
    have hlen := aesEncBlock_length key cb hk
    generalize hblk : aesEncBlock key cb = blk at hw hlen
    cases hw with
    | head => exact hlen
    | tail b hmem => exact ih (inc32 cb) w hmem

lemma keystream_length (key cb : List ℕ) (len : ℕ) (hk : key.length = 32) :
    (keystream key cb len).length = len := by
  have hfl : ((ctrBlocks key cb ((len + 15) / 16)).flatten).length = 16 * ((len + 15) / 16) := by
    rw [flatten_const_length 16 _ (ctrBlocks_block_length key hk _ cb), ctrBlocks_count]
  rw [keystream, List.length_take, hfl]
  omega

lemma gcmTag_length (key nonce body ad : List ℕ) (hk : key.length = 32) :
    (gcmTag key nonce body ad).length = 16 := by
  rw [gcmTag, zipXor_length, natToBytesBE_length, aesEncBlock_length key _ hk]
  exact Nat.min_self 16

lemma gcmEncrypt_length (key nonce m ad : List ℕ) (hk : key.length = 32) :
    (gcmEncrypt key nonce m ad).length = m.length + 16 := by
  rw [gcmEncrypt, List.length_append, zipXor_length, keystream_length key _ _ hk,
    gcmTag_length key _ _ _ hk, Nat.min_self]

/-- AES-256-GCM round-trip at the level of raw nonce and ciphertext. -/
lemma gcm_roundtrip (key nonce m ad : List ℕ) (hk : key.length = 32) :
    gcmDecrypt key nonce (gcmEncrypt key nonce m ad) ad = Except.ok m := by
  have hksl : (keystream key (inc32 (j0 nonce)) m.length).length = m.length :=
    keystream_length key _ m.length hk
  obtain ⟨body, hB⟩ : ∃ body, zipXor m (keystream key (inc32 (j0 nonce)) m.length) = body :=
    ⟨_, rfl⟩
  have hbl : body.length = m.length := by
    rw [← hB, zipXor_length, hksl, Nat.min_self]
  obtain ⟨tg, hT⟩ : ∃ tg, gcmTag key nonce body ad = tg := ⟨_, rfl⟩
  have htl : tg.length = 16 := by
    rw [← hT]
    exact gcmTag_length key nonce body ad hk
  have henc : gcmEncrypt key nonce m ad = body ++ tg := by
    rw [← hT, ← hB]
    rfl
  rw [henc, gcmDecrypt, List.length_append, hbl, htl]
  rw [if_neg (by omega)]
  have harith : m.length + 16 - 16 = body.length := by omega
  rw [harith, List.take_left, List.drop_left]
  rw [if_pos hT, hbl, ← hB]
  exact congrArg Except.ok (zipXor_zipXor_cancel m _ hksl.symm.le)

/-! ## Attestation quotes (spec §4.5, `demonstrate_attestation` in `example.py`)

Modelled from the spec: `build(measurements, nonce)` is pure data assembly of
an unsigned quote record; `demonstrate_attestation` only assembles the
measurement mapping and nonce without a record type of its own. -/

/-- An attestation quote (spec §3): measurement-register values plus a
freshness nonce.  The record has exactly these two fields — no signature
field, since signing is explicitly out of scope. -/
structure AttestationQuote where
  measurements : List (String × List ℕ)
  nonce : List ℕ
  deriving DecidableEq, Repr

/-- The operation `build(measurements, nonce) -> AttestationQuote`: pure data assembly. -/
def buildQuote (ms : List (String × List ℕ)) (n : List ℕ) : AttestationQuote := ⟨ms, n⟩

/-! ## Control flow of `example.py`

Translated from the source: `demonstrate_full_flow` runs the ECDH stage, feeds
its shared secret to the HKDF stage, feeds the derived key to the AES-GCM
stage, then runs the attestation stage; no stage catches exceptions, so the
first failure propagates to `main`, whose `try/except` reports the error
instead of printing the success banner.  The outcome of each library-calling
stage is a parameter. -/

/-- The function `demonstrate_full_flow` (`src/example.py` lines 141–161): sequential
composition of the four demonstration stages; a raised error short-circuits. -/
def fullFlow (ecdhStage : Except CryptoError (List ℕ))
    (hkdfStage : List ℕ → Except CryptoError (List ℕ))
    (aesStage : List ℕ → Except CryptoError Unit)
    (attStage : Except CryptoError Unit) : Except CryptoError Unit := do
  let sharedSecret ← ecdhStage
  let encryptionKey ← hkdfStage sharedSecret
  aesStage encryptionKey
  attStage

/-- The two observable outcomes of `main` in `src/example.py`: the success
banner, or the `except`-branch report of the raised error. -/
inductive DemoOutcome where
  | completed
  | reported (e : CryptoError)
  deriving DecidableEq, Repr

/-- The entry point `main` (`src/example.py` lines 164–189): runs the full flow inside
`try/except`; on an exception it prints the error rather than the success
banner, and never re-raises. -/
def mainOutcome (ecdhStage : Except CryptoError (List ℕ))
    (hkdfStage : List ℕ → Except CryptoError (List ℕ))
    (aesStage : List ℕ → Except CryptoError Unit)
    (attStage : Except CryptoError Unit) : DemoOutcome :=
  match fullFlow ecdhStage hkdfStage aesStage attStage with
  | Except.ok _ => DemoOutcome.completed
  | Except.error e => DemoOutcome.reported e

/-! ## Control flow of `verify.py` (translated from the source) -/

/-- The results of the eight verification checks, in the order `main` of
`src/verify.py` collects them (lines 299–308). -/
structure VerifyResults where
  pythonVersion : Bool
  dependencies : Bool
  confidentialCompute : Bool
  files : Bool
  cryptoOperations : Bool
  htmlStructure : Bool
  javascript : Bool
  serverImports : Bool
  deriving DecidableEq, Repr

/-- The values `results.values()` of the check dictionary in `main`. -/
def resultsValues (r : VerifyResults) : List Bool :=
  [r.pythonVersion, r.dependencies, r.confidentialCompute, r.files,
   r.cryptoOperations, r.htmlStructure, r.javascript, r.serverImports]

/-- The function `print_summary` (`src/verify.py` lines 266–288): `passed = sum(values)`,
`total = len(results)`, success iff `passed == total`. -/
def printSummarySuccess (r : VerifyResults) : Bool :=
  (resultsValues r).foldl (fun n b => n + if b then 1 else 0) 0 = (resultsValues r).length

/-- The entry point `main` (`src/verify.py` lines 291–312): exit status `0` when
`print_summary` reports success, `1` otherwise. -/
def verifyMainExit (r : VerifyResults) : ℕ := if printSummarySuccess r then 0 else 1

/-- The check `test_crypto_operations` (`src/verify.py` lines 93–123): the crypto check
passes exactly when the `example.py` subprocess exits with status `0`. -/
def testCryptoOperations (returncode : ℕ) : Bool := returncode == 0

/-! ## Strings of the end-to-end scenario -/

/-- UTF-8 bytes of an ASCII string (`message.encode` in the scripts). -/
def msgBytes (s : String) : List ℕ := s.data.map Char.toNat

/-- Decode bytes back to a string (`decrypted.decode` in the scripts). -/
def bytesToString (l : List ℕ) : String := String.mk (l.map Char.ofNat)

/-- The demonstration plaintext of `demonstrate_aes_gcm`. -/
def helloMessage : String := "Hello from Cerumbra! This message is end-to-end encrypted."

/-! ## Remaining helper lemmas -/

/-- ECDH commutes: both honest parties compute the same shared point, hence
the same serialised shared secret. -/
lemma agree_comm (a b : ℕ) : agree a (pubOf b) = agree b (pubOf a) := by
  unfold agree pubOf
  rw [smul_smul, smul_smul, Nat.mul_comm]

lemma genNonce_length (rng : ℕ → ℕ) : (genNonce rng).length = 12 := by
  simp [genNonce]

lemma except_error_bind {α β : Type} (e : CryptoError) (f : α → Except CryptoError β) :
    (Except.error e >>= f) = Except.error e := rfl

lemma except_ok_bind {α β : Type} (a : α) (f : α → Except CryptoError β) :
    (Except.ok a >>= f) = f a := rfl

/-- Partial tamper-detection fact: whenever the stored 16-byte tag of a
ciphertext differs from the tag recomputed over its body and the associated
data, `decrypt` rejects with `AuthenticationFailed` and releases no
plaintext.  In particular any change confined to the tag region of an
envelope is always rejected.  (Detection of body or associated-data changes
additionally requires the key's GHASH subkey `E_K(0¹²⁸)` to be nonzero, a
per-key property of AES-256 that holds for no known key exception but is not
decidable for all `2²⁵⁶` keys.) -/
lemma gcmDecrypt_reject_of_tag_mismatch (key nonce body tag2 ad : List ℕ)
    (htl : tag2.length = 16) (hne : gcmTag key nonce body ad ≠ tag2) :
    gcmDecrypt key nonce (body ++ tag2) ad = Except.error CryptoError.AuthenticationFailed := by
  rw [gcmDecrypt, List.length_append, htl]
  rw [if_neg (by omega)]
  rw [Nat.add_sub_cancel, List.take_left, List.drop_left]
  rw [if_neg hne]

/-! ## Claim theorems -/

/-- C1: AEAD round-trip — for every 32-byte session key `k`, every byte
string `m` (including the empty string) and every associated data `ad` of
valid length, decrypting the envelope produced by `encrypt(k, m, ad)` with
the same key and associated data returns exactly `m`. -/
theorem C1_aead_roundtrip (rng : ℕ → ℕ) (key m ad : List ℕ)
    (hk : key.length = 32) (had : 8 * ad.length < 2 ^ 64) :
    decryptEnv key (encryptEnv rng key m ad) ad = Except.ok m := by
  unfold decryptEnv encryptEnv
  exact gcm_roundtrip key (genNonce rng) m ad hk

theorem C1_aead_roundtrip_witness :
    (List.replicate 32 0 : List ℕ).length = 32 ∧ 8 * ([] : List ℕ).length < 2 ^ 64 ∧
      decryptEnv (List.replicate 32 0)
        (encryptEnv (fun _ => 0) (List.replicate 32 0) [1, 2, 3] []) []
        = Except.ok [1, 2, 3] :=
  ⟨by decide, by decide,
   C1_aead_roundtrip (fun _ => 0) (List.replicate 32 0) [1, 2, 3] [] (by decide) (by decide)⟩

/-- C2: ECDH symmetry — for every two honestly generated P-256 key pairs
`A = (a, a • G)` and `B = (b, b • G)`, `agree(A.priv, B.pub)` and
`agree(B.priv, A.pub)` yield byte-identical shared secrets (shown for all
private scalars, in particular the honestly generated ones). -/
theorem C2_ecdh_symmetry (a b : ℕ) : agree a (pubOf b) = agree b (pubOf a) :=
  agree_comm a b

/-- C4: key-derivation determinism and length — for every shared secret `s`,
`derive(s, "cerumbra-v1-encryption", 32)` (HKDF over SHA-256 with no salt) is
a deterministic function of its inputs and its output is always exactly
32 bytes. -/
theorem C4_derive_deterministic_length (s : List ℕ) :
    (derive s cerumbraInfo 32).length = 32 ∧
      ∀ t : List ℕ, t = s → derive t cerumbraInfo 32 = derive s cerumbraInfo 32 :=
  ⟨derive_length s cerumbraInfo 32, fun _ ht => by rw [ht]⟩

theorem C4_derive_deterministic_length_witness :
    (derive (List.replicate 32 7) cerumbraInfo 32).length = 32 ∧
      derive (List.replicate 32 7) cerumbraInfo 32
        = derive (List.replicate 32 7) cerumbraInfo 32 :=
  ⟨(C4_derive_deterministic_length (List.replicate 32 7)).1,
   (C4_derive_deterministic_length (List.replicate 32 7)).2 _ rfl⟩

/-- C5: peer-key validation — for every input to `agree` whose remote public
key encodes an affine point not on curve P-256 (in particular any point of a
different curve; the identity point has no affine encoding and is likewise
never accepted), `agree` rejects it with `InvalidPeerPublicKey` rather than
computing a shared secret. -/
theorem C5_invalid_peer_key_rejected (d : ℕ) (x y : ZMod p256) (h : ¬ onCurve x y) :
    agreeChecked d x y = Except.error CryptoError.InvalidPeerPublicKey := by
  unfold agreeChecked
  rw [dif_neg h]

theorem C5_invalid_peer_key_rejected_witness :
    ¬ onCurve (0 : ZMod p256) 1 ∧
      agreeChecked 5 (0 : ZMod p256) 1 = Except.error CryptoError.InvalidPeerPublicKey :=
  ⟨by decide, C5_invalid_peer_key_rejected 5 0 1 (by decide)⟩

/-- C6: envelope shape — every call to `encrypt` draws a fresh 12-byte nonce
from the cryptographically random entropy source for that call, and the
resulting envelope's ciphertext is the plaintext's encryption with the
16-byte authentication tag appended, so its length is the plaintext length
plus 16. -/
theorem C6_envelope_shape (rng : ℕ → ℕ) (key m ad : List ℕ) (hk : key.length = 32) :
    (encryptEnv rng key m ad).nonce = genNonce rng ∧
      (encryptEnv rng key m ad).nonce.length = 12 ∧
      (encryptEnv rng key m ad).ciphertext.length = m.length + 16 :=
  ⟨rfl, genNonce_length rng, gcmEncrypt_length key (genNonce rng) m ad hk⟩

theorem C6_envelope_shape_witness :
    (List.replicate 32 1 : List ℕ).length = 32 ∧
      (encryptEnv (fun _ => 0) (List.replicate 32 1) [5, 6] []).nonce = genNonce (fun _ => 0) ∧
      (encryptEnv (fun _ => 0) (List.replicate 32 1) [5, 6] []).nonce.length = 12 ∧
      (encryptEnv (fun _ => 0) (List.replicate 32 1) [5, 6] []).ciphertext.length = 2 + 16 :=
  ⟨by decide, (C6_envelope_shape (fun _ => 0) (List.replicate 32 1) [5, 6] [] (by decide)).1,
   (C6_envelope_shape (fun _ => 0) (List.replicate 32 1) [5, 6] [] (by decide)).2.1,
   (C6_envelope_shape (fun _ => 0) (List.replicate 32 1) [5, 6] [] (by decide)).2.2⟩

/-- C7: end-to-end scenario — when client and server each hold a P-256 key
pair and the client's ECDH computation `a • (b • G)` yields an affine point
with x-coordinate `x`, both parties compute the identical 32-byte shared
secret, both derive the identical session key with info
`"cerumbra-v1-encryption"`, the client encrypts the UTF-8 demonstration text,
the server decrypts it recovering the exact original string, the server
encrypts a reply, and the client decrypts and recovers that reply. -/
theorem C7_end_to_end (a b : ℕ) (x : ZMod p256) (rngC rngS : ℕ → ℕ) (reply : List ℕ)
    (hs : sharedX (a • pubOf b) = some x) :
    agree a (pubOf b) = some (natToBytesBE 32 x.val) ∧
    agree b (pubOf a) = some (natToBytesBE 32 x.val) ∧
    (natToBytesBE 32 x.val).length = 32 ∧
    (derive (natToBytesBE 32 x.val) cerumbraInfo 32).length = 32 ∧
    decryptEnv (derive (natToBytesBE 32 x.val) cerumbraInfo 32)
        (encryptEnv rngC (derive (natToBytesBE 32 x.val) cerumbraInfo 32)
          (msgBytes helloMessage) []) []
      = Except.ok (msgBytes helloMessage) ∧
    bytesToString (msgBytes helloMessage) = helloMessage ∧
    decryptEnv (derive (natToBytesBE 32 x.val) cerumbraInfo 32)
        (encryptEnv rngS (derive (natToBytesBE 32 x.val) cerumbraInfo 32) reply []) []
      = Except.ok reply := by
  have hagree : agree a (pubOf b) = some (natToBytesBE 32 x.val) := by
    unfold agree
    rw [hs]
    rfl
  have hkey : (derive (natToBytesBE 32 x.val) cerumbraInfo 32).length = 32 :=
    derive_length _ _ _
  refine ⟨hagree, ?_, natToBytesBE_length 32 x.val, hkey, ?_, ?_, ?_⟩
  · rw [← agree_comm]
    exact hagree
  · unfold decryptEnv encryptEnv
    exact gcm_roundtrip _ _ _ _ hkey
  · decide
  · unfold decryptEnv encryptEnv
    exact gcm_roundtrip _ _ _ _ hkey

theorem C7_end_to_end_witness :
    sharedX ((1 : ℕ) • pubOf 1) = some ((gx : ℕ) : ZMod p256) ∧
      (agree 1 (pubOf 1) = some (natToBytesBE 32 ((gx : ℕ) : ZMod p256).val) ∧
       agree 1 (pubOf 1) = some (natToBytesBE 32 ((gx : ℕ) : ZMod p256).val) ∧
       (natToBytesBE 32 ((gx : ℕ) : ZMod p256).val).length = 32 ∧
       (derive (natToBytesBE 32 ((gx : ℕ) : ZMod p256).val) cerumbraInfo 32).length = 32 ∧
       decryptEnv (derive (natToBytesBE 32 ((gx : ℕ) : ZMod p256).val) cerumbraInfo 32)
           (encryptEnv (fun _ => 0)
             (derive (natToBytesBE 32 ((gx : ℕ) : ZMod p256).val) cerumbraInfo 32)
             (msgBytes helloMessage) []) []
         = Except.ok (msgBytes helloMessage) ∧
       bytesToString (msgBytes helloMessage) = helloMessage ∧
       decryptEnv (derive (natToBytesBE 32 ((gx : ℕ) : ZMod p256).val) cerumbraInfo 32)
           (encryptEnv (fun _ => 1)
             (derive (natToBytesBE 32 ((gx : ℕ) : ZMod p256).val) cerumbraInfo 32) [9, 9] []) []
         = Except.ok [9, 9]) := by
  have hs : sharedX ((1 : ℕ) • pubOf 1) = some ((gx : ℕ) : ZMod p256) := by
    unfold pubOf
    rw [one_smul, one_smul]
    rfl
  exact ⟨hs, C7_end_to_end 1 1 ((gx : ℕ) : ZMod p256) (fun _ => 0) (fun _ => 1) [9, 9] hs⟩

/-- C8: error propagation — for every run in which a cryptographic stage of
the demonstration fails (key agreement, derivation, the AEAD stage, or
attestation), the failure propagates through `demonstrate_full_flow` to the
entry point as the same typed error, the entry point reports that error
rather than completing as if successful, and the failure is never silently
swallowed. -/
theorem C8_error_propagation (ecdhStage : Except CryptoError (List ℕ))
    (hkdfStage : List ℕ → Except CryptoError (List ℕ))
    (aesStage : List ℕ → Except CryptoError Unit)
    (attStage : Except CryptoError Unit) (e : CryptoError)
    (hfail : ecdhStage = Except.error e ∨
      (∃ s, ecdhStage = Except.ok s ∧ hkdfStage s = Except.error e) ∨
      (∃ s k, ecdhStage = Except.ok s ∧ hkdfStage s = Except.ok k ∧
        aesStage k = Except.error e) ∨
      (∃ s k, ecdhStage = Except.ok s ∧ hkdfStage s = Except.ok k ∧
        aesStage k = Except.ok () ∧ attStage = Except.error e)) :
    fullFlow ecdhStage hkdfStage aesStage attStage = Except.error e ∧
      mainOutcome ecdhStage hkdfStage aesStage attStage = DemoOutcome.reported e ∧
      DemoOutcome.reported e ≠ DemoOutcome.completed := by
  have hff : fullFlow ecdhStage hkdfStage aesStage attStage = Except.error e := by
    rcases hfail with h | ⟨s, h1, h2⟩ | ⟨s, k, h1, h2, h3⟩ | ⟨s, k, h1, h2, h3, h4⟩
    · simp only [fullFlow, h, except_error_bind]
    · simp only [fullFlow, h1, except_ok_bind, h2, except_error_bind]
    · simp only [fullFlow, h1, except_ok_bind, h2, h3, except_error_bind]
    · simp only [fullFlow, h1, except_ok_bind, h2, h3, h4, except_error_bind]
  refine ⟨hff, ?_, by simp⟩
  unfold mainOutcome
  rw [hff]

theorem C8_error_propagation_witness :
    fullFlow (Except.error CryptoError.RandomSourceUnavailable)
        (fun s => Except.ok s) (fun _ => Except.ok ()) (Except.ok ())
      = Except.error CryptoError.RandomSourceUnavailable ∧
      mainOutcome (Except.error CryptoError.RandomSourceUnavailable)
          (fun s => Except.ok s) (fun _ => Except.ok ()) (Except.ok ())
        = DemoOutcome.reported CryptoError.RandomSourceUnavailable ∧
      DemoOutcome.reported CryptoError.RandomSourceUnavailable ≠ DemoOutcome.completed :=
  C8_error_propagation _ _ _ _ _ (Or.inl rfl)

/-- C9: attestation quote integrity — building a quote from three distinct
32-byte measurement values and a 32-byte nonce yields a record from which the
three measurement entries and the nonce are retrievable unmodified, and the
record is fully determined by its measurements and nonce (it carries no
signature field). -/
theorem C9_attestation_quote (m0 m1 m2 n : List ℕ)
    (hd01 : m0 ≠ m1) (hd02 : m0 ≠ m2) (hd12 : m1 ≠ m2)
    (h0 : m0.length = 32) (h1 : m1.length = 32) (h2 : m2.length = 32)
    (hn : n.length = 32) :
    (buildQuote [("pcr0", m0), ("pcr1", m1), ("pcr2", m2)] n).measurements.lookup "pcr0"
        = some m0 ∧
    (buildQuote [("pcr0", m0), ("pcr1", m1), ("pcr2", m2)] n).measurements.lookup "pcr1"
        = some m1 ∧
    (buildQuote [("pcr0", m0), ("pcr1", m1), ("pcr2", m2)] n).measurements.lookup "pcr2"
        = some m2 ∧
    (buildQuote [("pcr0", m0), ("pcr1", m1), ("pcr2", m2)] n).nonce = n ∧
    ∀ q : AttestationQuote,
      q.measurements = (buildQuote [("pcr0", m0), ("pcr1", m1), ("pcr2", m2)] n).measurements →
      q.nonce = (buildQuote [("pcr0", m0), ("pcr1", m1), ("pcr2", m2)] n).nonce →
      q = buildQuote [("pcr0", m0), ("pcr1", m1), ("pcr2", m2)] n := by
  refine ⟨rfl, rfl, rfl, rfl, ?_⟩
  intro q hm hnn
  cases q
  simp only [buildQuote] at hm hnn ⊢
  rw [hm, hnn]

theorem C9_attestation_quote_witness :
    (List.replicate 32 0 : List ℕ) ≠ List.replicate 32 1 ∧
      (buildQuote [("pcr0", List.replicate 32 0), ("pcr1", List.replicate 32 1),
          ("pcr2", List.replicate 32 2)] (List.replicate 32 3)).measurements.lookup "pcr0"
        = some (List.replicate 32 0) ∧
      (buildQuote [("pcr0", List.replicate 32 0), ("pcr1", List.replicate 32 1),
          ("pcr2", List.replicate 32 2)] (List.replicate 32 3)).nonce = List.replicate 32 3 :=
  ⟨by decide,
   (C9_attestation_quote (List.replicate 32 0) (List.replicate 32 1) (List.replicate 32 2)
     (List.replicate 32 3) (by decide) (by decide) (by decide) (by decide) (by decide)
     (by decide) (by decide)).1,
   (C9_attestation_quote (List.replicate 32 0) (List.replicate 32 1) (List.replicate 32 2)
     (List.replicate 32 3) (by decide) (by decide) (by decide) (by decide) (by decide)
     (by decide) (by decide)).2.2.2.1⟩

/-- C10: the verification entry point's exit status is `0` exactly when all
eight individual checks returned `true`; if any one check returns `false`,
the process exits with status `1`. -/
theorem C10_verify_exit_iff_all_pass (r : VerifyResults) :
    (verifyMainExit r = 0 ↔
      r.pythonVersion = true ∧ r.dependencies = true ∧ r.confidentialCompute = true ∧
      r.files = true ∧ r.cryptoOperations = true ∧ r.htmlStructure = true ∧
      r.javascript = true ∧ r.serverImports = true) ∧
    (verifyMainExit r = 0 ∨ verifyMainExit r = 1) := by
  cases r with
  | mk p d c f cr h j s =>
    revert p d c f cr h j s
    decide
